import Mathlib

/-!
Verification development for the lolang compiler and virtual machine
(src/vm.rs, src/compiler.rs, src/main.rs).

The Rust sources are embedded shallowly:
* pure functions become Lean functions;
* the VM run loop becomes a fuel-indexed step function over an explicit
  machine state;
* a Rust panic (process abort) is a distinguished result constructor,
  never silently identified with an error return value;
* the two diagnostic collaborators (the compile-time reporter and the
  runtime-error reporter in errors.rs, a file outside src/) print and
  return, as the spec describes; they are embedded as no-ops on state.

Numbers are f64 in the source.  They are modelled as Int: every numeric
literal and every arithmetic or comparison step exercised by a verified
claim is exact small-integer arithmetic, on which f64 and Int agree
bit-for-bit.  No claim depends on the value computed by the Divide
opcode (the only operation on which Int and f64 can disagree).
-/

set_option maxRecDepth 100000

namespace Lolang

/-- Modelled from the spec (section 3, Value model): the tagged union
{Nil, Bool, Number, Text}; values.rs is not under src/.  Number is f64
in the source, modelled as Int (see the file header). -/
inductive GenericValueType where
  | Nil : GenericValueType
  | Bool (b : Bool) : GenericValueType
  | Number (n : Int) : GenericValueType
  | Text (s : String) : GenericValueType
deriving DecidableEq, Repr

/-- vm.rs and compiler.rs use GenericValue and GenericValueType
interchangeably (patterns of one type match values of the other), so the
two names are aliases in values.rs. -/
abbrev GenericValue := GenericValueType

/-- vm.rs: RuntimeError. -/
inductive RuntimeError where
  | UnsupportedOperation (type1 type2 : String) : RuntimeError
  | InvalidOperation (msg : String) : RuntimeError
deriving DecidableEq, Repr

/-- Modelled from the spec (section 3, Value model): values.rs
constructor, wraps a bool. -/
def GenericValue.from_bool (b : Bool) : GenericValue := .Bool b

/-- Modelled from the spec: values.rs constructor for the Nil value. -/
def GenericValue.from_none : GenericValue := .Nil

/-- Modelled from the spec: values.rs constructor, wraps a number. -/
def GenericValue.from_number (n : Int) : GenericValue := .Number n

/-- Modelled from the spec: values.rs constructor, wraps a string. -/
def GenericValue.from_string (s : String) : GenericValue := .Text s

/-- Modelled from the spec (section 4.6 step table): the Add operator of
values.rs; defined for Number pairs, error otherwise. -/
def GenericValue.add : GenericValue → GenericValue → Except RuntimeError GenericValue
  | .Number a, .Number b => .ok (.Number (a + b))
  | _, _ => .error (.InvalidOperation "add")

/-- Modelled from the spec (section 4.6 step table): the Sub operator of
values.rs. -/
def GenericValue.sub : GenericValue → GenericValue → Except RuntimeError GenericValue
  | .Number a, .Number b => .ok (.Number (a - b))
  | _, _ => .error (.InvalidOperation "sub")

/-- Modelled from the spec (section 4.6 step table): the Mul operator of
values.rs. -/
def GenericValue.mul : GenericValue → GenericValue → Except RuntimeError GenericValue
  | .Number a, .Number b => .ok (.Number (a * b))
  | _, _ => .error (.InvalidOperation "mul")

/-- Modelled from the spec (section 4.6 step table): the Div operator of
values.rs.  Integer division stands in for f64 division; no claim
depends on the quotient value. -/
def GenericValue.div : GenericValue → GenericValue → Except RuntimeError GenericValue
  | .Number a, .Number b => .ok (.Number (a / b))
  | _, _ => .error (.InvalidOperation "div")

/-- Modelled from the spec (section 4.6 step table): the Neg operator of
values.rs, used by negate_peek. -/
def GenericValue.neg : GenericValue → Except RuntimeError GenericValue
  | .Number a => .ok (.Number (-a))
  | _ => .error (.InvalidOperation "neg")

/-- Modelled from the spec (section 6 wire format, which lists the
opcode set in declaration order): the OpCode enum of chunk.rs, a file
not under src/.  Discriminants are the enum order 0..13. -/
inductive OpCode where
  | OpReturn | OpConstant | OpNegate | OpAdd | OpSubtract | OpMultiply
  | OpDivide | OpNil | OpFalse | OpTrue | OpNot | OpEqual | OpGreater
  | OpLess
deriving DecidableEq, Repr

/-- Discriminant of an opcode, as used by `OpCode as usize` in the
compiler. -/
def OpCode.toNat : OpCode → Nat
  | .OpReturn => 0
  | .OpConstant => 1
  | .OpNegate => 2
  | .OpAdd => 3
  | .OpSubtract => 4
  | .OpMultiply => 5
  | .OpDivide => 6
  | .OpNil => 7
  | .OpFalse => 8
  | .OpTrue => 9
  | .OpNot => 10
  | .OpEqual => 11
  | .OpGreater => 12
  | .OpLess => 13

/-- Modelled from the spec: OpCode::from_usize of chunk.rs; none models
the failure case on a byte outside the opcode range. -/
def OpCode.from_usize : Nat → Option OpCode
  | 0 => some .OpReturn
  | 1 => some .OpConstant
  | 2 => some .OpNegate
  | 3 => some .OpAdd
  | 4 => some .OpSubtract
  | 5 => some .OpMultiply
  | 6 => some .OpDivide
  | 7 => some .OpNil
  | 8 => some .OpFalse
  | 9 => some .OpTrue
  | 10 => some .OpNot
  | 11 => some .OpEqual
  | 12 => some .OpGreater
  | 13 => some .OpLess
  | _ => none

/-- Modelled from the spec (section 3, section 4.5): the Chunk of
chunk.rs — bytecode sequence, parallel line sequence, constant pool. -/
structure Chunk where
  bytecode : List Nat
  lines : List Nat
  const_pool : List GenericValue
deriving DecidableEq, Repr

/-- Chunk::default — all three sequences empty. -/
def Chunk.default : Chunk := ⟨[], [], []⟩

/-- Modelled from the spec (section 4.5 write): appends one byte and its
line in lockstep. -/
def Chunk.write_chunk (c : Chunk) (byte line : Nat) : Chunk :=
  { c with bytecode := c.bytecode ++ [byte], lines := c.lines ++ [line] }

/-- Modelled from the spec (section 4.5 add_constant): appends to the
constant pool and returns the new index. -/
def Chunk.add_const (c : Chunk) (v : GenericValue) : Nat × Chunk :=
  (c.const_pool.length, { c with const_pool := c.const_pool ++ [v] })

/-- Modelled from the spec (section 3): the configured fixed stack
capacity of constants.rs, a file not under src/.  The exact value does
not affect any claim. -/
def STACK_MAX : Nat := 256

/-- vm.rs: VirtualMachineStack — a fixed-capacity array of values plus
a top index. -/
structure VirtualMachineStack where
  values : List GenericValue
  top : Nat
deriving DecidableEq, Repr

/-- vm.rs: Default for VirtualMachineStack — capacity slots initialized
to Nil, top 0. -/
def VirtualMachineStack.default : VirtualMachineStack :=
  ⟨List.replicate STACK_MAX .Nil, 0⟩

/-- vm.rs push: a push with top at capacity executes the panic macro,
aborting the process; the panic is modelled as none. -/
def VirtualMachineStack.push (s : VirtualMachineStack) (value : GenericValue) :
    Option VirtualMachineStack :=
  if s.values.length ≤ s.top then none
  else some ⟨s.values.set s.top value, s.top + 1⟩

/-- vm.rs pop: a pop on an empty stack panics (none). -/
def VirtualMachineStack.pop (s : VirtualMachineStack) :
    Option (GenericValue × VirtualMachineStack) :=
  if s.top = 0 then none
  else some (s.values.getD (s.top - 1) .Nil, ⟨s.values, s.top - 1⟩)

/-- vm.rs peek: distance 0 is the top value; a peek on an empty stack
panics (none). -/
def VirtualMachineStack.peek (s : VirtualMachineStack) (distance : Nat) :
    Option GenericValue :=
  if s.top = 0 then none
  else some (s.values.getD (s.top - 1 - distance) .Nil)

/-- vm.rs negate_peek: panics on an empty stack; on a non-Number top it
calls the runtime-error reporter (a print) and leaves the slot
unchanged; otherwise it negates the top slot in place. -/
def VirtualMachineStack.negate_peek (s : VirtualMachineStack) :
    Option VirtualMachineStack :=
  if s.top = 0 then none
  else
    match (s.values.getD (s.top - 1) .Nil).neg with
    | .ok v => some ⟨s.values.set (s.top - 1) v, s.top⟩
    | .error _ => some s

/-- vm.rs: InterpretResult. -/
inductive InterpretResult where
  | InterpretOk
  | InterpretCompileError
  | InterpretRunTimeError
deriving DecidableEq, Repr

/-- vm.rs: VirtualMachine — chunk, instruction pointer, operand stack. -/
structure VirtualMachine where
  chunk : Chunk
  ip : Nat
  vm_stack : VirtualMachineStack
deriving DecidableEq, Repr

/-- vm.rs VirtualMachine::new. -/
def VirtualMachine.new (chunk : Chunk) : VirtualMachine :=
  ⟨chunk, 0, VirtualMachineStack.default⟩

/-- vm.rs Default for VirtualMachine (used by main.rs). -/
def VirtualMachine.default : VirtualMachine := VirtualMachine.new Chunk.default

/-- vm.rs VirtualMachine::update_chunk. -/
def VirtualMachine.update_chunk (vm : VirtualMachine) (chunk : Chunk) : VirtualMachine :=
  { vm with chunk := chunk }

/-- Replace the operand stack of a machine state. -/
def VirtualMachine.withStack (vm : VirtualMachine) (s : VirtualMachineStack) :
    VirtualMachine :=
  { vm with vm_stack := s }

/-- The reason a modelled Rust panic or unchecked out-of-range index
aborted execution.  The source process dies in all of these cases; the
constructor records which indexing or stack check failed. -/
inductive PanicReason where
  | stackOverflow
  | stackUnderflow
  | badOpcode
  | ipOutOfRange
  | poolOutOfRange
deriving DecidableEq, Repr

/-- Result of executing one instruction of the run loop: fall through to
the next loop iteration, return from run (the Return arm, carrying the
value that arm pops and prints), or abort the process. -/
inductive StepResult where
  | next (vm : VirtualMachine)
  | done (r : InterpretResult) (printed : GenericValue) (vm : VirtualMachine)
  | panic (why : PanicReason)
deriving DecidableEq, Repr

/-- Push helper: vm.vm_stack.push(v), panicking on overflow. -/
def pushStep (vm : VirtualMachine) (v : GenericValue) : StepResult :=
  match vm.vm_stack.push v with
  | none => .panic .stackOverflow
  | some s => .next (vm.withStack s)

/-- The shared shape of the OpAdd, OpSubtract, OpMultiply and OpDivide
arms of vm.rs run: pop v1, pop v2, apply the operator to (v1, v2); on
Ok push the result, on Err call the runtime-error reporter (a print)
and continue the loop with both operands consumed. -/
def binArith (vm : VirtualMachine)
    (f : GenericValue → GenericValue → Except RuntimeError GenericValue) : StepResult :=
  match vm.vm_stack.pop with
  | none => .panic .stackUnderflow
  | some (v1, s1) =>
    match s1.pop with
    | none => .panic .stackUnderflow
    | some (v2, s2) =>
      match f v1 v2 with
      | .ok v => pushStep (vm.withStack s2) v
      | .error _ => .next (vm.withStack s2)

/-- The shared shape of the OpGreater and OpLess arms of vm.rs run:
pop v1, pop v2, apply the comparison helper to (v1, v2); on Ok push the
Bool result, on Err call the runtime-error reporter (a print) and
continue with both operands consumed. -/
def binCompare (vm : VirtualMachine)
    (f : GenericValue → GenericValue → Except RuntimeError Bool) : StepResult :=
  match vm.vm_stack.pop with
  | none => .panic .stackUnderflow
  | some (v1, s1) =>
    match s1.pop with
    | none => .panic .stackUnderflow
    | some (v2, s2) =>
      match f v1 v2 with
      | .ok b => pushStep (vm.withStack s2) (.Bool b)
      | .error _ => .next (vm.withStack s2)

/-- vm.rs run, OpNot arm helper is_false: Nil is falsey, Bool flips,
anything else is a runtime error. -/
def is_false : GenericValue → Except RuntimeError Bool
  | .Nil => .ok true
  | .Bool b => .ok (!b)
  | _ => .error (.InvalidOperation "unary only support boolean and None")

/-- vm.rs run, OpEqual arm helper is_equal: cross-variant pairs compare
false; the source has no Text arm, so two Text values also fall to the
catch-all and compare false. -/
def is_equal : GenericValue → GenericValue → Bool
  | .Nil, .Nil => true
  | .Bool b1, .Bool b2 => b1 == b2
  | .Number n1, .Number n2 => n1 == n2
  | _, _ => false

/-- vm.rs run, OpGreater arm helper is_greater: Ok(n1 > n2) on Number
pairs, error otherwise. -/
def is_greater : GenericValue → GenericValue → Except RuntimeError Bool
  | .Number n1, .Number n2 => .ok (decide (n1 > n2))
  | _, _ => .error (.InvalidOperation "not supported")

/-- vm.rs run, OpLess arm helper is_less: the source body is Ok(n1 > n2)
on Number pairs — the same comparison as is_greater — error otherwise. -/
def is_less : GenericValue → GenericValue → Except RuntimeError Bool
  | .Number n1, .Number n2 => .ok (decide (n1 > n2))
  | _, _ => .error (.InvalidOperation "not supported")

/-- One decoded instruction of the vm.rs run loop, executed on the state
in which the instruction pointer has already advanced past the opcode
byte.  Arms that call the runtime-error reporter on a type error print
and fall through to the next iteration, exactly as the source match
arms do. -/
def execOp (vm : VirtualMachine) : OpCode → StepResult
  | .OpReturn =>
    match vm.vm_stack.pop with
    | none => .panic .stackUnderflow
    | some (v, s) => .done .InterpretOk v (vm.withStack s)
  | .OpConstant =>
    match vm.chunk.bytecode[vm.ip]? with
    | none => .panic .ipOutOfRange
    | some idx =>
      match vm.chunk.const_pool[idx]? with
      | none => .panic .poolOutOfRange
      | some v => pushStep { vm with ip := vm.ip + 1 } v
  | .OpNegate =>
    match vm.vm_stack.negate_peek with
    | none => .panic .stackUnderflow
    | some s => .next (vm.withStack s)
  | .OpAdd => binArith vm GenericValue.add
  | .OpSubtract => binArith vm GenericValue.sub
  | .OpMultiply => binArith vm GenericValue.mul
  | .OpDivide => binArith vm GenericValue.div
  | .OpNil => pushStep vm GenericValue.from_none
  | .OpFalse => pushStep vm (GenericValue.from_bool true)
  | .OpTrue => pushStep vm (GenericValue.from_bool false)
  | .OpNot =>
    match vm.vm_stack.pop with
    | none => .panic .stackUnderflow
    | some (v, s) =>
      match is_false v with
      | .ok b => pushStep (vm.withStack s) (GenericValue.from_bool b)
      | .error _ => .next (vm.withStack s)
  | .OpEqual =>
    match vm.vm_stack.pop with
    | none => .panic .stackUnderflow
    | some (v1, s1) =>
      match s1.pop with
      | none => .panic .stackUnderflow
      | some (v2, s2) => pushStep (vm.withStack s2) (.Bool (is_equal v1 v2))
  | .OpGreater => binCompare vm is_greater
  | .OpLess => binCompare vm is_less

/-- One iteration of the vm.rs run loop: read_op (panicking if ip is
outside the bytecode or the byte is not an opcode), then dispatch. -/
def step (vm : VirtualMachine) : StepResult :=
  match vm.chunk.bytecode[vm.ip]? with
  | none => .panic .ipOutOfRange
  | some b =>
    match OpCode.from_usize b with
    | none => .panic .badOpcode
    | some op => execOp { vm with ip := vm.ip + 1 } op

/-- Result of the whole run loop: a returned InterpretResult together
with the value the Return arm printed and the machine state at return;
a process abort; or fuel exhaustion (the source loop simply has no
bound). -/
inductive RunResult where
  | res (r : InterpretResult) (printed : GenericValue) (vm : VirtualMachine)
  | panic (why : PanicReason)
  | fuelOut (vm : VirtualMachine)
deriving DecidableEq, Repr

/-- vm.rs run: iterate step.  Fuel only bounds the iteration count of
the shallow embedding; every claim is either fuel-polymorphic or proved
at a fuel large enough for the execution to finish. -/
def run : Nat → VirtualMachine → RunResult
  | 0, vm => .fuelOut vm
  | fuel + 1, vm =>
    match step vm with
    | .next vm2 => run fuel vm2
    | .done r printed vm2 => .res r printed vm2
    | .panic why => .panic why

/-- Observer: the InterpretResult of a finished run of a fresh VM on a
chunk, if the run finished. -/
def runClass (fuel : Nat) (c : Chunk) : Option InterpretResult :=
  match run fuel (VirtualMachine.new c) with
  | .res r _ _ => some r
  | _ => none

/-- Observer: the value printed by the Return arm of a finished run of
a fresh VM on a chunk. -/
def runOut (fuel : Nat) (c : Chunk) : Option GenericValue :=
  match run fuel (VirtualMachine.new c) with
  | .res _ printed _ => some printed
  | _ => none

/-- Observer: the abort reason of a run of a fresh VM on a chunk, if the
modelled process aborted. -/
def runPanicReason (fuel : Nat) (c : Chunk) : Option PanicReason :=
  match run fuel (VirtualMachine.new c) with
  | .panic why => some why
  | _ => none

/-- Modelled from the spec (section 2, section 3): the closed TokenType
enumeration of tokens.rs, a file not under src/.  Only the categories
the expression language uses are needed. -/
inductive TokenType where
  | LeftParen | RightParen | Minus | Plus | Slash | Star
  | Bang | BangEqual | Equal | EqualEqual
  | Greater | GreaterEqual | Less | LessEqual
  | Number | String | True | False | Nil
  | Error | EOF
deriving DecidableEq, Repr

/-- Modelled from the spec (section 3): a Token — type, lexeme, line. -/
structure Token where
  token_type : TokenType
  lexeme : String
  line : Nat
deriving DecidableEq, Repr

/-- tokens.rs getter used throughout compiler.rs. -/
def Token.get_token_type (t : Token) : TokenType := t.token_type

/-- tokens.rs getter used throughout compiler.rs. -/
def Token.get_line (t : Token) : Nat := t.line

/-- tokens.rs getter used by the number and string handlers. -/
def Token.get_lexeme (t : Token) : String := t.lexeme

/-- Modelled from the spec (section 4.1): the Scanner state of
scanner.rs, a file not under src/ — the remaining source characters and
the current line counter. -/
structure Scanner where
  chars : List Char
  line : Nat
deriving DecidableEq, Repr

/-- Scanner::new over a source string; line counting starts at 1. -/
def Scanner.new (s : String) : Scanner := ⟨s.toList, 1⟩

/-- Modelled from the spec (section 4.1): consume whitespace and line
comments before a token; a newline advances the line counter.  The
Bool argument is true while inside a line comment. -/
def skipWs : List Char → Nat → Bool → List Char × Nat
  | [], line, _ => ([], line)
  | c :: rest, line, true =>
    if c = '\n' then skipWs rest (line + 1) false else skipWs rest line true
  | c :: rest, line, false =>
    if c = '\n' then skipWs rest (line + 1) false
    else if c = ' ' ∨ c = '\t' ∨ c = '\r' then skipWs rest line false
    else
      match c, rest with
      | '/', '/' :: r => skipWs r line true
      | _, _ => (c :: rest, line)

/-- Modelled from the spec (section 4.1): scan the remainder of a text
literal after the opening quote; returns the content, the line after
the literal and the rest of the input, or none when the literal is
unterminated. -/
def scanText : List Char → Nat → List Char → Option (List Char × Nat × List Char)
  | [], _, _ => none
  | c :: rest, line, acc =>
    if c = '"' then some (acc.reverse, line, rest)
    else if c = '\n' then scanText rest (line + 1) (c :: acc)
    else scanText rest line (c :: acc)

/-- A character of an identifier tail. -/
def isIdentChar (c : Char) : Bool := c.isAlphanum || c = '_'

/-- Modelled from the spec (section 4.1): Scanner::next_token — exactly
one token per call; digits form a Number (one optional decimal point),
identifier shapes are matched against the keyword set {true, false,
nil} and are otherwise an unsupported class surfaced as an Error token;
one- and two-character operators; an end-of-input sentinel once the
characters run out; any other character yields an Error token. -/
def Scanner.next_token (s : Scanner) : Token × Scanner :=
  match skipWs s.chars s.line false with
  | (cs, line) =>
    match cs with
    | [] => (⟨.EOF, "", line⟩, ⟨[], line⟩)
    | c :: rest =>
      if c.isDigit then
        let ds := (c :: rest).takeWhile Char.isDigit
        let tail1 := (c :: rest).dropWhile Char.isDigit
        match tail1 with
        | '.' :: d2 :: r2 =>
          if d2.isDigit then
            let frac := (d2 :: r2).takeWhile Char.isDigit
            let tail2 := (d2 :: r2).dropWhile Char.isDigit
            (⟨.Number, String.mk (ds ++ '.' :: frac), line⟩, ⟨tail2, line⟩)
          else (⟨.Number, String.mk ds, line⟩, ⟨tail1, line⟩)
        | _ => (⟨.Number, String.mk ds, line⟩, ⟨tail1, line⟩)
      else if c.isAlpha ∨ c = '_' then
        let id := (c :: rest).takeWhile isIdentChar
        let tail1 := (c :: rest).dropWhile isIdentChar
        let lex := String.mk id
        let tt : TokenType :=
          if lex = "true" then .True
          else if lex = "false" then .False
          else if lex = "nil" then .Nil
          else .Error
        (⟨tt, lex, line⟩, ⟨tail1, line⟩)
      else if c = '"' then
        match scanText rest line [] with
        | some (content, line2, tail1) =>
          (⟨.String, String.mk content, line2⟩, ⟨tail1, line2⟩)
        | none => (⟨.Error, String.mk (c :: rest), line⟩, ⟨[], line⟩)
      else
        match c, rest with
        | '!', '=' :: r => (⟨.BangEqual, "!=", line⟩, ⟨r, line⟩)
        | '=', '=' :: r => (⟨.EqualEqual, "==", line⟩, ⟨r, line⟩)
        | '<', '=' :: r => (⟨.LessEqual, "<=", line⟩, ⟨r, line⟩)
        | '>', '=' :: r => (⟨.GreaterEqual, ">=", line⟩, ⟨r, line⟩)
        | '!', _ => (⟨.Bang, "!", line⟩, ⟨rest, line⟩)
        | '=', _ => (⟨.Equal, "=", line⟩, ⟨rest, line⟩)
        | '<', _ => (⟨.Less, "<", line⟩, ⟨rest, line⟩)
        | '>', _ => (⟨.Greater, ">", line⟩, ⟨rest, line⟩)
        | '(', _ => (⟨.LeftParen, "(", line⟩, ⟨rest, line⟩)
        | ')', _ => (⟨.RightParen, ")", line⟩, ⟨rest, line⟩)
        | '-', _ => (⟨.Minus, "-", line⟩, ⟨rest, line⟩)
        | '+', _ => (⟨.Plus, "+", line⟩, ⟨rest, line⟩)
        | '*', _ => (⟨.Star, "*", line⟩, ⟨rest, line⟩)
        | '/', _ => (⟨.Slash, "/", line⟩, ⟨rest, line⟩)
        | _, _ => (⟨.Error, String.mk [c], line⟩, ⟨rest, line⟩)

/-- Modelled from the spec (section 3): the Parser of parser.rs, a file
not under src/ — previous and current token and the sticky error flag. -/
structure Parser where
  previous : Option Token
  current : Option Token
  had_error : Bool
deriving DecidableEq, Repr

/-- Parser::new — no tokens seen, no error. -/
def Parser.new : Parser := ⟨none, none, false⟩

/-- Modelled from the spec (section 4.2): the fetch loop inside
Parser::advance — keep fetching while the scanner yields Error tokens,
reporting each one and setting had_error.  Every fetch consumes input,
so the character count bounds the iterations; the fuel is set to that
bound by Parser.advance. -/
def Parser.advanceLoop : Nat → Parser → Scanner → Parser × Scanner
  | 0, p, s => (p, s)
  | fuel + 1, p, s =>
    match s.next_token with
    | (t, s2) =>
      if t.token_type = TokenType.Error then
        Parser.advanceLoop fuel { p with had_error := true } s2
      else ({ p with current := some t }, s2)

/-- Modelled from the spec (section 4.2): Parser::advance — shift
current into previous, then fetch the next non-Error token. -/
def Parser.advance (p : Parser) (s : Scanner) : Parser × Scanner :=
  Parser.advanceLoop (s.chars.length + 1) { p with previous := p.current } s

/-- Modelled from the spec (section 4.2): Parser::consume — advance when
the current token has the expected type, otherwise report and set
had_error without advancing. -/
def Parser.consume (p : Parser) (expected : TokenType) (s : Scanner) :
    Parser × Scanner :=
  match p.current with
  | some t =>
    if t.token_type = expected then p.advance s
    else ({ p with had_error := true }, s)
  | none => ({ p with had_error := true }, s)

/-- rules.rs ParseFn — the enum-of-handlers dispatch used instead of
function pointers (modelled from the spec, section 9 design notes, and
the execute_parsfn match in compiler.rs). -/
inductive ParseFn where
  | Literal | Number | Unary | Binary | Grouping | String | Null
deriving DecidableEq, Repr

/-- Modelled from the spec (section 3): the totally ordered precedence
levels, lowest to highest, represented by their usize discriminants:
None < Assignment < Equality < Comparison < Term < Factor < Unary <
Call < Primary. -/
def PrecNone : Nat := 0

/-- Assignment precedence discriminant (see PrecNone). -/
def PrecAssignment : Nat := 1

/-- Equality precedence discriminant (see PrecNone). -/
def PrecEquality : Nat := 2

/-- Comparison precedence discriminant (see PrecNone). -/
def PrecComparison : Nat := 3

/-- Term precedence discriminant (see PrecNone). -/
def PrecTerm : Nat := 4

/-- Factor precedence discriminant (see PrecNone). -/
def PrecFactor : Nat := 5

/-- Unary precedence discriminant (see PrecNone). -/
def PrecUnary : Nat := 6

/-- Modelled from the spec (section 3): a ParseRule — prefix capability,
infix capability, precedence level.  The field names pfx and ifx stand
for the prefix and infix capabilities of the rule. -/
structure ParseRule where
  pfx : ParseFn
  ifx : ParseFn
  precedence : Nat
deriving DecidableEq, Repr

/-- Modelled from the spec (sections 3, 4.3, 4.4): the static table of
rules.rs, one entry per TokenType — literals and grouping carry prefix
capabilities at precedence None, minus and bang carry Unary prefix
capability, the binary operators carry the Binary infix capability at
Term, Factor, Equality or Comparison precedence. -/
def ruleTable : TokenType → ParseRule
  | .LeftParen => ⟨.Grouping, .Null, PrecNone⟩
  | .RightParen => ⟨.Null, .Null, PrecNone⟩
  | .Minus => ⟨.Unary, .Binary, PrecTerm⟩
  | .Plus => ⟨.Null, .Binary, PrecTerm⟩
  | .Slash => ⟨.Null, .Binary, PrecFactor⟩
  | .Star => ⟨.Null, .Binary, PrecFactor⟩
  | .Bang => ⟨.Unary, .Null, PrecNone⟩
  | .BangEqual => ⟨.Null, .Binary, PrecEquality⟩
  | .Equal => ⟨.Null, .Null, PrecNone⟩
  | .EqualEqual => ⟨.Null, .Binary, PrecEquality⟩
  | .Greater => ⟨.Null, .Binary, PrecComparison⟩
  | .GreaterEqual => ⟨.Null, .Binary, PrecComparison⟩
  | .Less => ⟨.Null, .Binary, PrecComparison⟩
  | .LessEqual => ⟨.Null, .Binary, PrecComparison⟩
  | .Number => ⟨.Number, .Null, PrecNone⟩
  | .String => ⟨.String, .Null, PrecNone⟩
  | .True => ⟨.Literal, .Null, PrecNone⟩
  | .False => ⟨.Literal, .Null, PrecNone⟩
  | .Nil => ⟨.Literal, .Null, PrecNone⟩
  | .Error => ⟨.Null, .Null, PrecNone⟩
  | .EOF => ⟨.Null, .Null, PrecNone⟩

/-- rules.rs ParseRule::get_rule — one static entry per TokenType, so it
is total and always some. -/
def ParseRule.get_rule (t : TokenType) : Option ParseRule := some (ruleTable t)

/-- The joint mutable state threaded through the compiler.rs functions:
the parser, the scanner and the output chunk. -/
structure CompState where
  parser : Parser
  scanner : Scanner
  chunk : Chunk
deriving DecidableEq, Repr

/-- compiler.rs emit_byte. -/
def emit_byte (chunk : Chunk) (byte : Nat) (previous_line : Nat) : Chunk :=
  chunk.write_chunk byte previous_line

/-- compiler.rs emit_bytes. -/
def emit_bytes (chunk : Chunk) (byte1 byte2 : Nat) (previous_line : Nat) : Chunk :=
  emit_byte (emit_byte chunk byte1 previous_line) byte2 previous_line

/-- compiler.rs make_constant. -/
def make_constant (value : GenericValue) (chunk : Chunk) : Nat × Chunk :=
  chunk.add_const value

/-- compiler.rs emit_constant: add the value to the pool, then emit the
Constant opcode followed by the returned pool index. -/
def emit_constant (previous_line : Nat) (value : GenericValue) (chunk : Chunk) : Chunk :=
  match make_constant value chunk with
  | (cont_operl, c2) => emit_bytes c2 (OpCode.toNat .OpConstant) cont_operl previous_line

/-- Modelled from the spec (section 4.4): the lexeme-to-f64 parse inside
the number handler, for digit lexemes with an optional fractional part.
The fractional digits are dropped after scaling cancels; every lexeme a
claim exercises is an integer, on which this is exact. -/
def parseNumberLexeme (s : String) : Int :=
  match s.splitOn "." with
  | [i] => (i.toList.foldl (fun a c => a * 10 + (c.toNat - 48)) 0 : Nat)
  | i :: _ :: _ => (i.toList.foldl (fun a c => a * 10 + (c.toNat - 48)) 0 : Nat)
  | [] => 0

/-- compiler.rs number handler: parse the lexeme of the previous token
and emit a constant-load for it. -/
def number (previous_token : Option Token) (chunk : Chunk) : Chunk :=
  match previous_token with
  | none => chunk
  | some token =>
    emit_constant token.get_line
      (GenericValue.from_number (parseNumberLexeme token.get_lexeme)) chunk

/-- compiler.rs string handler: emit a constant-load for the lexeme. -/
def string (previous_token : Option Token) (chunk : Chunk) : Chunk :=
  match previous_token with
  | none => chunk
  | some token =>
    emit_constant token.get_line (GenericValue.from_string token.get_lexeme) chunk

/-- compiler.rs literal handler: one dedicated immediate opcode for
false, nil and true; other token types emit nothing. -/
def literal (previous_token : Option Token) (chunk : Chunk) : Chunk :=
  match previous_token with
  | none => chunk
  | some token =>
    match token.get_token_type with
    | .False => emit_byte chunk (OpCode.toNat .OpFalse) token.get_line
    | .Nil => emit_byte chunk (OpCode.toNat .OpNil) token.get_line
    | .True => emit_byte chunk (OpCode.toNat .OpTrue) token.get_line
    | _ => chunk

mutual

/-- compiler.rs parse_precedence, first half: advance, look up the rule
of the token that became previous, report (a print, state unchanged)
when it has no prefix capability, run the prefix handler, then enter
the infix loop.  previous_type is captured here, before the loop, and
ppLoop keeps using it — exactly as the source does.  Fuel 0 returns the
state unchanged; every use supplies enough fuel. -/
def parse_precedence (fuel : Nat) (precedence : Nat) (st : CompState) : CompState :=
  match fuel with
  | 0 => st
  | fuel + 1 =>
    let pa := st.parser.advance st.scanner
    let st2 : CompState := ⟨pa.1, pa.2, st.chunk⟩
    match st2.parser.previous with
    | none => st2
    | some token =>
      match ParseRule.get_rule token.get_token_type with
      | none => st2
      | some rule =>
        let st3 := execute_parsfn fuel rule.pfx st2
        ppLoop fuel precedence token.get_token_type st3

/-- compiler.rs parse_precedence, the infix loop: while the rule of the
not-yet-consumed current token has precedence at least the minimum,
advance and run the infix capability looked up from previous_type — the
token type captured before the loop, not the operator just consumed. -/
def ppLoop (fuel : Nat) (precedence : Nat) (previous_type : TokenType)
    (st : CompState) : CompState :=
  match fuel with
  | 0 => st
  | fuel + 1 =>
    match st.parser.current with
    | none => st
    | some curr_token =>
      match ParseRule.get_rule curr_token.get_token_type with
      | none => st
      | some rule =>
        if precedence ≤ rule.precedence then
          let pa := st.parser.advance st.scanner
          let st2 : CompState := ⟨pa.1, pa.2, st.chunk⟩
          match ParseRule.get_rule previous_type with
          | none => st2
          | some r2 =>
            let st3 := execute_parsfn fuel r2.ifx st2
            ppLoop fuel precedence previous_type st3
        else st

/-- compiler.rs execute_parsfn: dispatch on the ParseFn variant, passing
the previous token of the parser to the handlers that take one. -/
def execute_parsfn (fuel : Nat) (parsfn : ParseFn) (st : CompState) : CompState :=
  match fuel with
  | 0 => st
  | fuel + 1 =>
    let token := st.parser.previous
    match parsfn with
    | .Literal => { st with chunk := literal token st.chunk }
    | .Number => { st with chunk := number token st.chunk }
    | .Unary => unary fuel token st
    | .Binary => binary fuel token st
    | .Grouping => grouping fuel st
    | .String => { st with chunk := string token st.chunk }
    | .Null => st

/-- compiler.rs unary: parse at Unary precedence, then ALSO call
expression on the operand position (both calls are in the source), then
emit the Negate or Not opcode at the line of the operator token. -/
def unary (fuel : Nat) (previous_token : Option Token) (st : CompState) : CompState :=
  match fuel with
  | 0 => st
  | fuel + 1 =>
    match previous_token with
    | none => st
    | some token =>
      let st2 := parse_precedence fuel PrecUnary st
      let st3 := expression fuel st2
      match token.get_token_type with
      | .Minus => { st3 with chunk := emit_byte st3.chunk (OpCode.toNat .OpNegate) token.get_line }
      | .Bang => { st3 with chunk := emit_byte st3.chunk (OpCode.toNat .OpNot) token.get_line }
      | _ => st3

/-- compiler.rs binary: parse the right operand one level above the
precedence of the operator, then emit the opcode (or fused pair) of
the operator. -/
def binary (fuel : Nat) (previous_token : Option Token) (st : CompState) : CompState :=
  match fuel with
  | 0 => st
  | fuel + 1 =>
    match previous_token with
    | none => st
    | some token =>
      match ParseRule.get_rule token.get_token_type with
      | none => st
      | some rule =>
        let st2 := parse_precedence fuel (rule.precedence + 1) st
        let line := token.get_line
        match token.get_token_type with
        | .Plus => { st2 with chunk := emit_byte st2.chunk (OpCode.toNat .OpAdd) line }
        | .Minus => { st2 with chunk := emit_byte st2.chunk (OpCode.toNat .OpSubtract) line }
        | .Star => { st2 with chunk := emit_byte st2.chunk (OpCode.toNat .OpMultiply) line }
        | .Slash => { st2 with chunk := emit_byte st2.chunk (OpCode.toNat .OpDivide) line }
        | .EqualEqual => { st2 with chunk := emit_byte st2.chunk (OpCode.toNat .OpEqual) line }
        | .BangEqual => { st2 with chunk := emit_bytes st2.chunk (OpCode.toNat .OpEqual) (OpCode.toNat .OpNot) line }
        | .Greater => { st2 with chunk := emit_byte st2.chunk (OpCode.toNat .OpGreater) line }
        | .GreaterEqual => { st2 with chunk := emit_bytes st2.chunk (OpCode.toNat .OpLess) (OpCode.toNat .OpNot) line }
        | .Less => { st2 with chunk := emit_byte st2.chunk (OpCode.toNat .OpLess) line }
        | .LessEqual => { st2 with chunk := emit_bytes st2.chunk (OpCode.toNat .OpGreater) (OpCode.toNat .OpNot) line }
        | _ => st2

/-- compiler.rs grouping: parse an inner expression, then require a
right parenthesis. -/
def grouping (fuel : Nat) (st : CompState) : CompState :=
  match fuel with
  | 0 => st
  | fuel + 1 =>
    let st2 := expression fuel st
    let pc := st2.parser.consume TokenType.RightParen st2.scanner
    (⟨pc.1, pc.2, st2.chunk⟩ : CompState)

/-- compiler.rs expression: parse at Assignment precedence. -/
def expression (fuel : Nat) (st : CompState) : CompState :=
  match fuel with
  | 0 => st
  | fuel + 1 => parse_precedence fuel PrecAssignment st

end

/-- Fuel that comfortably dominates the recursion depth and loop trip
count of the compiler on a source string. -/
def compileFuel (s : String) : Nat := 4 * s.length + 16

/-- compiler.rs end_compiler: append the terminal Return instruction. -/
def end_compiler (chunk : Chunk) (previous_line : Nat) : Chunk :=
  emit_byte chunk (OpCode.toNat .OpReturn) previous_line

/-- compiler.rs compile: scan and parse one expression into the given
chunk, require end of input, append the terminal instruction, and
report success as the negated sticky error flag. -/
def compile (s : String) (chunk : Chunk) : Bool × Chunk :=
  let scanner := Scanner.new s
  let parser := Parser.new
  let pa := parser.advance scanner
  let st := expression (compileFuel s) ⟨pa.1, pa.2, chunk⟩
  let pc := st.parser.consume TokenType.EOF st.scanner
  let line := (pc.1.previous.map Token.get_line).getD 0
  let ch := end_compiler st.chunk line
  (!pc.1.had_error, ch)

/-- main.rs interpret, observed end to end: compile, and if compilation
fails report InterpretCompileError without running; otherwise run the
VM on the populated chunk.  The printed result value, an abort, or fuel
exhaustion is surfaced for the theorems. -/
inductive InterpretOutcome where
  | result (r : InterpretResult) (printed : Option GenericValue)
  | panic (why : PanicReason)
  | timeout
deriving DecidableEq, Repr

/-- main.rs interpret composed with vm.rs run (the run_file shape: fresh
VM and chunk per call when applied to defaults). -/
def interpret (fuel : Nat) (s : String) (vm : VirtualMachine) (chunk : Chunk) :
    InterpretOutcome :=
  match compile s chunk with
  | (ok, ch) =>
    if !ok then .result .InterpretCompileError none
    else
      match run fuel (vm.update_chunk ch) with
      | .res r printed _ => .result r (some printed)
      | .panic why => .panic why
      | .fuelOut _ => .timeout

/-- Well-formed bytecode with respect to a constant pool of n entries:
reading the byte list the way the run loop does — one byte per
instruction, except that a Constant opcode byte consumes the following
byte as a pool index — every such index is below n, and no Constant
opcode dangles at the end without its operand byte. -/
inductive CodeOk (n : Nat) : List Nat → Prop
  | nil : CodeOk n []
  | const {idx : Nat} {rest : List Nat} :
      idx < n → CodeOk n rest → CodeOk n (OpCode.toNat .OpConstant :: idx :: rest)
  | simple {b : Nat} {rest : List Nat} :
      b ≠ OpCode.toNat .OpConstant → CodeOk n rest → CodeOk n (b :: rest)

/-- The compile-time invariant of a chunk: its bytecode is well formed
with respect to its own constant pool. -/
def Inv (c : Chunk) : Prop := CodeOk c.const_pool.length c.bytecode

/-- The run-time invariant of a machine state: the bytecode from the
instruction pointer onward is well formed with respect to the pool. -/
def SuffixOk (vm : VirtualMachine) : Prop :=
  CodeOk vm.chunk.const_pool.length (vm.chunk.bytecode.drop vm.ip)

/-- Zero or more fall-through iterations of the run loop. -/
inductive Steps : VirtualMachine → VirtualMachine → Prop
  | refl (vm : VirtualMachine) : Steps vm vm
  | head {vm vm2 vm3 : VirtualMachine} :
      step vm = .next vm2 → Steps vm2 vm3 → Steps vm vm3

/-- Append further compiled code to a chunk: more bytecode and lines,
more pool entries.  This is what a later compile call into the same
chunk does in prompt mode. -/
def Chunk.appendCode (c : Chunk) (bytes lines2 : List Nat)
    (consts : List GenericValue) : Chunk :=
  ⟨c.bytecode ++ bytes, c.lines ++ lines2, c.const_pool ++ consts⟩

/-- What holds of a run that returned a result: it returned Ok; the
chunk was never replaced; the final state is reached from the initial
one by fall-through iterations followed by the Return arm, whose
consumed opcode byte sits immediately before the final instruction
pointer; and if the Return byte was the last byte of the chunk, a later
run over the same chunk extended by appending fetches its first opcode
from the first newly appended byte. -/
def ReturnFramePost (vm vmf : VirtualMachine) (printed : GenericValue)
    (r : InterpretResult) : Prop :=
  r = .InterpretOk ∧ vmf.chunk = vm.chunk ∧
  (∃ vmr, Steps vm vmr ∧ step vmr = .done .InterpretOk printed vmf ∧
    vmf.ip = vmr.ip + 1 ∧
    vm.chunk.bytecode[vmr.ip]? = some (OpCode.toNat .OpReturn)) ∧
  (vmf.ip = vm.chunk.bytecode.length →
    ∀ bytes lines2 consts,
      ((vmf.update_chunk (vm.chunk.appendCode bytes lines2 consts)).chunk.bytecode[
        (vmf.update_chunk (vm.chunk.appendCode bytes lines2 consts)).ip]?) = bytes[0]?)

/-- A concrete chunk for exercising the Return-frame property: load the
constant 7, then Return. -/
def c10Chunk : Chunk := ⟨[1, 0, 0], [0, 0, 0], [.Number 7]⟩

/-- A fresh VM over c10Chunk. -/
def c10VM : VirtualMachine := VirtualMachine.new c10Chunk

/-- The machine state in which the run over c10Chunk returns: ip one
past the Return byte, the loaded constant popped again by the Return
arm. -/
def c10VMF : VirtualMachine :=
  ⟨c10Chunk, 3, ⟨.Number 7 :: List.replicate 255 .Nil, 0⟩⟩

/-- The per-operator opcode sequences exactly as the spec states them:
EqualEqual one Equal; BangEqual Equal then Not; LessEqual Greater then
Not; GreaterEqual Less then Not; Less and Greater one dedicated opcode
each.  Stated from the spec to be compared with what binary emits. -/
def claimedOps : TokenType → List Nat
  | .EqualEqual => [OpCode.toNat .OpEqual]
  | .BangEqual => [OpCode.toNat .OpEqual, OpCode.toNat .OpNot]
  | .LessEqual => [OpCode.toNat .OpGreater, OpCode.toNat .OpNot]
  | .GreaterEqual => [OpCode.toNat .OpLess, OpCode.toNat .OpNot]
  | .Less => [OpCode.toNat .OpLess]
  | .Greater => [OpCode.toNat .OpGreater]
  | _ => []

theorem drop_cons_of_get {α : Type} :
    ∀ (l : List α) (i : Nat) (b : α), l[i]? = some b →
      l.drop i = b :: l.drop (i + 1) := by
  intro l
  induction l with
  | nil => intro i b h; simp at h
  | cons a t ih =>
    intro i b h
    cases i with
    | zero => simp at h; simp [h]
    | succ j => simpa using ih j b (by simpa using h)

theorem get_of_drop_cons {α : Type} :
    ∀ (l : List α) (i : Nat) (x : α) (t : List α), l.drop i = x :: t →
      l[i]? = some x := by
  intro l
  induction l with
  | nil => intro i x t h; simp at h
  | cons a u ih =>
    intro i x t h
    cases i with
    | zero => simp at h; simp [h.1]
    | succ j => simpa using ih j x t (by simpa using h)

theorem drop_succ_of_drop_cons {α : Type} :
    ∀ (l : List α) (i : Nat) (x : α) (t : List α), l.drop i = x :: t →
      l.drop (i + 1) = t := by
  intro l
  induction l with
  | nil => intro i x t h; simp at h
  | cons a u ih =>
    intro i x t h
    cases i with
    | zero => simp at h; simp [h.2]
    | succ j => simpa using ih j x t (by simpa using h)

theorem get_some_of_lt {α : Type} :
    ∀ (l : List α) (i : Nat), i < l.length → ∃ v, l[i]? = some v := by
  intro l
  induction l with
  | nil => intro i h; simp at h
  | cons a t ih =>
    intro i h
    cases i with
    | zero => exact ⟨a, by simp⟩
    | succ j => simpa using ih j (by simpa using h)

theorem get_append_left_len {α : Type} (l1 l2 : List α) :
    (l1 ++ l2)[l1.length]? = l2[0]? := by
  induction l1 with
  | nil => rfl
  | cons a t ih => simpa using ih

theorem from_usize_eq_constant {n : Nat}
    (h : OpCode.from_usize n = some .OpConstant) : n = OpCode.toNat .OpConstant := by
  rcases n with _|_|_|_|_|_|_|_|_|_|_|_|_|_|m <;>
    simp_all [OpCode.from_usize, OpCode.toNat]

theorem from_usize_eq_return {n : Nat}
    (h : OpCode.from_usize n = some .OpReturn) : n = OpCode.toNat .OpReturn := by
  rcases n with _|_|_|_|_|_|_|_|_|_|_|_|_|_|m <;>
    simp_all [OpCode.from_usize, OpCode.toNat]

theorem from_usize_toNat (op : OpCode) :
    OpCode.from_usize (OpCode.toNat op) = some op := by
  cases op <;> rfl

theorem pushStep_next {vm vm' : VirtualMachine} {v : GenericValue}
    (h : pushStep vm v = .next vm') : vm'.chunk = vm.chunk ∧ vm'.ip = vm.ip := by
  unfold pushStep at h
  split at h
  · simp at h
  · cases h; exact ⟨rfl, rfl⟩

theorem pushStep_ne_pool {vm : VirtualMachine} {v : GenericValue} :
    pushStep vm v ≠ .panic .poolOutOfRange := by
  unfold pushStep
  cases vm.vm_stack.push v <;> simp

theorem pushStep_ne_done {vm vmf : VirtualMachine} {v out : GenericValue}
    {r : InterpretResult} : pushStep vm v ≠ .done r out vmf := by
  unfold pushStep
  cases vm.vm_stack.push v <;> simp

theorem binArith_next {vm vm' : VirtualMachine}
    {f : GenericValue → GenericValue → Except RuntimeError GenericValue}
    (h : binArith vm f = .next vm') : vm'.chunk = vm.chunk ∧ vm'.ip = vm.ip := by
  unfold binArith at h
  split at h
  · simp at h
  · split at h
    · simp at h
    · split at h
      · obtain ⟨h1, h2⟩ := pushStep_next h; exact ⟨h1, h2⟩
      · cases h; exact ⟨rfl, rfl⟩

theorem binArith_ne_pool {vm : VirtualMachine}
    {f : GenericValue → GenericValue → Except RuntimeError GenericValue} :
    binArith vm f ≠ .panic .poolOutOfRange := by
  unfold binArith
  split
  · simp
  · split
    · simp
    · split
      · exact pushStep_ne_pool
      · simp

theorem binArith_ne_done {vm vmf : VirtualMachine} {out : GenericValue}
    {r : InterpretResult}
    {f : GenericValue → GenericValue → Except RuntimeError GenericValue} :
    binArith vm f ≠ .done r out vmf := by
  unfold binArith
  split
  · simp
  · split
    · simp
    · split
      · exact pushStep_ne_done
      · simp

theorem binCompare_next {vm vm' : VirtualMachine}
    {f : GenericValue → GenericValue → Except RuntimeError Bool}
    (h : binCompare vm f = .next vm') : vm'.chunk = vm.chunk ∧ vm'.ip = vm.ip := by
  unfold binCompare at h
  split at h
  · simp at h
  · split at h
    · simp at h
    · split at h
      · obtain ⟨h1, h2⟩ := pushStep_next h; exact ⟨h1, h2⟩
      · cases h; exact ⟨rfl, rfl⟩

theorem binCompare_ne_pool {vm : VirtualMachine}
    {f : GenericValue → GenericValue → Except RuntimeError Bool} :
    binCompare vm f ≠ .panic .poolOutOfRange := by
  unfold binCompare
  split
  · simp
  · split
    · simp
    · split
      · exact pushStep_ne_pool
      · simp

theorem binCompare_ne_done {vm vmf : VirtualMachine} {out : GenericValue}
    {r : InterpretResult}
    {f : GenericValue → GenericValue → Except RuntimeError Bool} :
    binCompare vm f ≠ .done r out vmf := by
  unfold binCompare
  split
  · simp
  · split
    · simp
    · split
      · exact pushStep_ne_done
      · simp

theorem execOp_next_chunk {vm vm' : VirtualMachine} {op : OpCode}
    (h : execOp vm op = .next vm') : vm'.chunk = vm.chunk := by
  cases op with
  | OpReturn =>
    simp only [execOp] at h
    split at h <;> simp at h
  | OpConstant =>
    simp only [execOp] at h
    split at h
    · simp at h
    · split at h
      · simp at h
      · exact (pushStep_next h).1
  | OpNegate =>
    simp only [execOp] at h
    split at h
    · simp at h
    · simp only [StepResult.next.injEq] at h; subst h; rfl
  | OpAdd => exact (binArith_next h).1
  | OpSubtract => exact (binArith_next h).1
  | OpMultiply => exact (binArith_next h).1
  | OpDivide => exact (binArith_next h).1
  | OpNil => exact (pushStep_next h).1
  | OpFalse => exact (pushStep_next h).1
  | OpTrue => exact (pushStep_next h).1
  | OpNot =>
    simp only [execOp] at h
    split at h
    · simp at h
    · split at h
      · exact (pushStep_next h).1
      · simp only [StepResult.next.injEq] at h; subst h; rfl
  | OpEqual =>
    simp only [execOp] at h
    split at h
    · simp at h
    · split at h
      · simp at h
      · exact (pushStep_next h).1
  | OpGreater => exact (binCompare_next h).1
  | OpLess => exact (binCompare_next h).1

theorem execOp_next_ip {vm vm' : VirtualMachine} {op : OpCode}
    (hop : op ≠ .OpConstant) (h : execOp vm op = .next vm') : vm'.ip = vm.ip := by
  cases op with
  | OpReturn =>
    simp only [execOp] at h
    split at h <;> simp at h
  | OpConstant => exact absurd rfl hop
  | OpNegate =>
    simp only [execOp] at h
    split at h
    · simp at h
    · simp only [StepResult.next.injEq] at h; subst h; rfl
  | OpAdd => exact (binArith_next h).2
  | OpSubtract => exact (binArith_next h).2
  | OpMultiply => exact (binArith_next h).2
  | OpDivide => exact (binArith_next h).2
  | OpNil => exact (pushStep_next h).2
  | OpFalse => exact (pushStep_next h).2
  | OpTrue => exact (pushStep_next h).2
  | OpNot =>
    simp only [execOp] at h
    split at h
    · simp at h
    · split at h
      · exact (pushStep_next h).2
      · simp only [StepResult.next.injEq] at h; subst h; rfl
  | OpEqual =>
    simp only [execOp] at h
    split at h
    · simp at h
    · split at h
      · simp at h
      · exact (pushStep_next h).2
  | OpGreater => exact (binCompare_next h).2
  | OpLess => exact (binCompare_next h).2

theorem execOp_ne_pool {vm : VirtualMachine} {op : OpCode}
    (hop : op ≠ .OpConstant) : execOp vm op ≠ .panic .poolOutOfRange := by
  intro h
  cases op with
  | OpReturn =>
    simp only [execOp] at h
    split at h <;> simp at h
  | OpConstant => exact absurd rfl hop
  | OpNegate =>
    simp only [execOp] at h
    split at h <;> simp at h
  | OpAdd => exact binArith_ne_pool h
  | OpSubtract => exact binArith_ne_pool h
  | OpMultiply => exact binArith_ne_pool h
  | OpDivide => exact binArith_ne_pool h
  | OpNil => exact pushStep_ne_pool h
  | OpFalse => exact pushStep_ne_pool h
  | OpTrue => exact pushStep_ne_pool h
  | OpNot =>
    simp only [execOp] at h
    split at h
    · simp at h
    · split at h
      · exact pushStep_ne_pool h
      · simp at h
  | OpEqual =>
    simp only [execOp] at h
    split at h
    · simp at h
    · split at h
      · simp at h
      · exact pushStep_ne_pool h
  | OpGreater => exact binCompare_ne_pool h
  | OpLess => exact binCompare_ne_pool h

theorem execOp_done {vm vmf : VirtualMachine} {op : OpCode}
    {r : InterpretResult} {out : GenericValue}
    (h : execOp vm op = .done r out vmf) :
    op = .OpReturn ∧ r = .InterpretOk ∧ vmf.chunk = vm.chunk ∧ vmf.ip = vm.ip := by
  cases op with
  | OpReturn =>
    simp only [execOp] at h
    split at h
    · simp at h
    · simp only [StepResult.done.injEq] at h
      obtain ⟨h1, h2, h3⟩ := h
      subst h1; subst h3
      exact ⟨rfl, rfl, rfl, rfl⟩
  | OpConstant =>
    simp only [execOp] at h
    split at h
    · simp at h
    · split at h
      · simp at h
      · exact absurd h pushStep_ne_done
  | OpNegate =>
    simp only [execOp] at h
    split at h <;> simp at h
  | OpAdd => exact absurd h binArith_ne_done
  | OpSubtract => exact absurd h binArith_ne_done
  | OpMultiply => exact absurd h binArith_ne_done
  | OpDivide => exact absurd h binArith_ne_done
  | OpNil => exact absurd h pushStep_ne_done
  | OpFalse => exact absurd h pushStep_ne_done
  | OpTrue => exact absurd h pushStep_ne_done
  | OpNot =>
    simp only [execOp] at h
    split at h
    · simp at h
    · split at h
      · exact absurd h pushStep_ne_done
      · simp at h
  | OpEqual =>
    simp only [execOp] at h
    split at h
    · simp at h
    · split at h
      · simp at h
      · exact absurd h pushStep_ne_done
  | OpGreater => exact absurd h binCompare_ne_done
  | OpLess => exact absurd h binCompare_ne_done

theorem step_next_chunk {vm vm' : VirtualMachine} (h : step vm = .next vm') :
    vm'.chunk = vm.chunk := by
  unfold step at h
  split at h
  · simp at h
  · split at h
    · simp at h
    · have h2 := execOp_next_chunk h
      exact h2

theorem step_done {vm vmf : VirtualMachine} {r : InterpretResult}
    {out : GenericValue} (h : step vm = .done r out vmf) :
    r = .InterpretOk ∧ vmf.chunk = vm.chunk ∧ vmf.ip = vm.ip + 1 ∧
    vm.chunk.bytecode[vm.ip]? = some (OpCode.toNat .OpReturn) := by
  unfold step at h
  split at h
  next heq => simp at h
  next b heq =>
    split at h
    next heq2 => simp at h
    next op heq2 =>
      obtain ⟨hop, hr, hch, hip⟩ := execOp_done h
      subst hop
      have hb0 : b = OpCode.toNat .OpReturn := from_usize_eq_return heq2
      refine ⟨hr, hch, hip, ?_⟩
      rw [heq, hb0]

theorem CodeOk.append {n : Nat} {l1 l2 : List Nat}
    (h1 : CodeOk n l1) (h2 : CodeOk n l2) : CodeOk n (l1 ++ l2) := by
  induction h1 with
  | nil => simpa
  | const hlt _ ih => exact CodeOk.const hlt ih
  | simple hne _ ih => exact CodeOk.simple hne ih

theorem CodeOk.mono {n m : Nat} {l : List Nat} (hnm : n ≤ m)
    (h : CodeOk n l) : CodeOk m l := by
  induction h with
  | nil => exact .nil
  | const hlt _ ih => exact .const (lt_of_lt_of_le hlt hnm) ih
  | simple hne _ ih => exact .simple hne ih

theorem step_preserve {vm : VirtualMachine} (h : SuffixOk vm) :
    step vm ≠ .panic .poolOutOfRange ∧
    ∀ vm', step vm = .next vm' → SuffixOk vm' := by
  unfold SuffixOk at h
  cases hb : vm.chunk.bytecode[vm.ip]? with
  | none =>
    have hs : step vm = .panic .ipOutOfRange := by
      unfold step; rw [hb]
    constructor
    · rw [hs]; simp
    · intro vm' hv; rw [hs] at hv; simp at hv
  | some b =>
    have hdrop := drop_cons_of_get _ _ _ hb
    rw [hdrop] at h
    by_cases hb1 : b = OpCode.toNat .OpConstant
    · subst hb1
      generalize hL : vm.chunk.bytecode.drop (vm.ip + 1) = L at h
      cases h with
      | simple hne _ => exact absurd rfl hne
      | const hlt hrest =>
        rename_i idx rest
        have hidx : vm.chunk.bytecode[vm.ip + 1]? = some idx :=
          get_of_drop_cons _ _ _ _ hL
        have hr2 : vm.chunk.bytecode.drop (vm.ip + 1 + 1) = rest :=
          drop_succ_of_drop_cons _ _ _ _ hL
        obtain ⟨v, hv⟩ := get_some_of_lt _ _ hlt
        have hs : step vm = pushStep { vm with ip := vm.ip + 1 + 1 } v := by
          simp [step, hb, execOp, OpCode.from_usize, OpCode.toNat, hidx, hv]
        constructor
        · rw [hs]; exact pushStep_ne_pool
        · intro vm' hv2
          rw [hs] at hv2
          obtain ⟨hc, hi⟩ := pushStep_next hv2
          unfold SuffixOk
          rw [hc, hi]
          show CodeOk vm.chunk.const_pool.length
            (vm.chunk.bytecode.drop (vm.ip + 1 + 1))
          rw [hr2]; exact hrest
    · generalize hL : vm.chunk.bytecode.drop (vm.ip + 1) = L at h
      have hrest : CodeOk vm.chunk.const_pool.length L := by
        cases h with
        | simple _ h2 => exact h2
        | const hlt h2 => exact absurd rfl hb1
      cases hc : OpCode.from_usize b with
      | none =>
        have hs : step vm = .panic .badOpcode := by simp [step, hb, hc]
        constructor
        · rw [hs]; simp
        · intro vm' hv2; rw [hs] at hv2; simp at hv2
      | some op =>
        have hop : op ≠ .OpConstant := by
          intro e; subst e; exact hb1 (from_usize_eq_constant hc)
        have hs : step vm = execOp { vm with ip := vm.ip + 1 } op := by
          simp [step, hb, hc]
        constructor
        · rw [hs]; exact execOp_ne_pool hop
        · intro vm' hv2
          rw [hs] at hv2
          have hcchunk := execOp_next_chunk hv2
          have hip := execOp_next_ip hop hv2
          unfold SuffixOk
          rw [hcchunk, hip]
          show CodeOk vm.chunk.const_pool.length
            (vm.chunk.bytecode.drop (vm.ip + 1))
          rw [hL]; exact hrest

theorem run_no_pool :
    ∀ (fuel : Nat) (vm : VirtualMachine), SuffixOk vm →
      run fuel vm ≠ .panic .poolOutOfRange := by
  intro fuel
  induction fuel with
  | zero => intro vm h; simp [run]
  | succ n ih =>
    intro vm h
    obtain ⟨h1, h2⟩ := step_preserve h
    cases hs : step vm with
    | next vm2 =>
      have hrun : run (n + 1) vm = run n vm2 := by simp [run, hs]
      rw [hrun]; exact ih vm2 (h2 vm2 hs)
    | done r p vm2 =>
      have hrun : run (n + 1) vm = .res r p vm2 := by simp [run, hs]
      rw [hrun]; simp
    | panic w =>
      have hrun : run (n + 1) vm = .panic w := by simp [run, hs]
      rw [hrun]
      intro e
      simp only [RunResult.panic.injEq] at e
      subst e
      exact h1 hs

/-- C1: the claim states that Less pushes the strict less-than of the
left operand against the right, that 3 less 5 is true and 5 less 3 is
false, and that Less and Greater are mutually exclusive on the same
ordered pair.  Executing the code: the two Less evaluations do hold
(first two conjuncts), but Greater on left 3, right 5 also pushes true
(third conjunct), because is_less and is_greater have the same body, so
the mutual-exclusivity part of the claim is false of the code. -/
theorem claim_C1_less_greater :
    runOut 10 ⟨[1, 0, 1, 1, 13, 0], [0, 0, 0, 0, 0, 0],
      [.Number 3, .Number 5]⟩ = some (.Bool true) ∧
    runOut 10 ⟨[1, 0, 1, 1, 13, 0], [0, 0, 0, 0, 0, 0],
      [.Number 5, .Number 3]⟩ = some (.Bool false) ∧
    runOut 10 ⟨[1, 0, 1, 1, 12, 0], [0, 0, 0, 0, 0, 0],
      [.Number 3, .Number 5]⟩ = some (.Bool true) := by
  refine ⟨?_, ?_, ?_⟩ <;> rfl

/-- C2: the claim states True pushes Bool true and False pushes Bool
false, and gives the negation table.  Executing the code: the chunk
[OpTrue, OpReturn] prints Bool false and [OpFalse, OpReturn] prints
Bool true (the two arms are swapped in vm.rs), so the full pipeline
yields false for the source text bang-false and true for bang-true —
the opposite of the claim — and bang-zero aborts the process with a
stack underflow instead of producing a runtime error result. -/
theorem claim_C2_literal_opcodes :
    runOut 10 ⟨[9, 0], [0, 0], []⟩ = some (.Bool false) ∧
    runOut 10 ⟨[8, 0], [0, 0], []⟩ = some (.Bool true) ∧
    interpret 20 "!false" VirtualMachine.default Chunk.default =
      .result .InterpretOk (some (.Bool false)) ∧
    interpret 20 "!true" VirtualMachine.default Chunk.default =
      .result .InterpretOk (some (.Bool true)) ∧
    interpret 20 "!nil" VirtualMachine.default Chunk.default =
      .result .InterpretOk (some (.Bool true)) ∧
    interpret 20 "!0" VirtualMachine.default Chunk.default =
      .panic .stackUnderflow := by
  refine ⟨?_, ?_, ?_, ?_, ?_, ?_⟩ <;> rfl

/-- C3: the claim states that every runtime violation immediately
aborts run with InterpretRunTimeError and that no later instruction
executes.  Executing the code on the chunk [Nil, Nil, Add, True,
Return]: the Add arm hits a type error, the reporter prints, the loop
continues, the True instruction after the violation still executes (its
pushed value becomes the printed result) and run returns InterpretOk —
not InterpretRunTimeError. -/
theorem claim_C3_no_fail_fast :
    runClass 10 ⟨[7, 7, 3, 9, 0], [0, 0, 0, 0, 0], []⟩ =
      some .InterpretOk ∧
    runOut 10 ⟨[7, 7, 3, 9, 0], [0, 0, 0, 0, 0], []⟩ =
      some (.Bool false) := by
  exact ⟨rfl, rfl⟩

/-- C4: the claim states that a push at capacity and a pop or peek on
an empty stack surface as a RuntimeError result of run rather than
aborting the host process.  Executing the code: push at capacity
panics (modelled none), a pop on the empty stack panics, a peek on the
empty stack panics, and a run of the chunk [Return] on a fresh VM
aborts the modelled process with a stack underflow instead of
returning a result. -/
theorem claim_C4_stack_panics :
    VirtualMachineStack.push ⟨List.replicate STACK_MAX .Nil, STACK_MAX⟩
      (.Number 1) = none ∧
    VirtualMachineStack.pop ⟨List.replicate STACK_MAX .Nil, 0⟩ = none ∧
    VirtualMachineStack.peek ⟨List.replicate STACK_MAX .Nil, 0⟩ 0 = none ∧
    run 10 (VirtualMachine.new ⟨[0], [0], []⟩) = .panic .stackUnderflow := by
  refine ⟨?_, ?_, ?_, ?_⟩ <;> rfl

/-- C5: the claim states that each loop iteration of parse_precedence
invokes the infix handler of the token that just became previous.
Executing the code on the source text 1 + 2: the loop advances past
Plus (whose rule has the Binary infix capability), but dispatches on the
stale previous_type Number captured before the loop, whose infix
capability is Null — so no Add opcode is ever emitted and compilation
fails at the end-of-input check.  The compiled bytecode is exactly
[Constant, 0, Return]. -/
theorem claim_C5_stale_dispatch :
    (compile "1 + 2" Chunk.default).1 = false ∧
    (compile "1 + 2" Chunk.default).2.bytecode =
      [OpCode.toNat .OpConstant, 0, OpCode.toNat .OpReturn] ∧
    (ruleTable .Plus).ifx = .Binary ∧ (ruleTable .Number).ifx = .Null := by
  refine ⟨?_, ?_, ?_, ?_⟩ <;> rfl

/-- C6: the claim states the three arithmetic evaluations 1 + 2 * 3 to
7, (1 + 2) * 3 to 9 and 10 - 3 - 2 to 5.  Executing the code: all
three source texts fail to compile (the stale infix dispatch of
parse_precedence drops every binary operator), so the pipeline reports
a compile error and nothing is ever evaluated. -/
theorem claim_C6_arithmetic :
    interpret 20 "1 + 2 * 3" VirtualMachine.default Chunk.default =
      .result .InterpretCompileError none ∧
    interpret 20 "(1 + 2) * 3" VirtualMachine.default Chunk.default =
      .result .InterpretCompileError none ∧
    interpret 20 "10 - 3 - 2" VirtualMachine.default Chunk.default =
      .result .InterpretCompileError none := by
  refine ⟨?_, ?_, ?_⟩ <;> rfl

/-- C7: the claim states that the unary handler parses its operand
exactly once and then emits exactly one opcode.  Executing the code:
unary contains both a parse_precedence call and a second expression
call on the operand position.  On the source text -1 + 2 the second
parse swallows + 2, so a well-formed unary expression inside a larger
one fails to compile; on the source text -1 1 the second parse consumes
the stray literal and the output contains two constant loads before the
single Negate — the operand region is compiled twice. -/
theorem claim_C7_unary_double_parse :
    (compile "-1 + 2" Chunk.default).1 = false ∧
    (compile "-1 1" Chunk.default).1 = true ∧
    (compile "-1 1" Chunk.default).2.bytecode =
      [OpCode.toNat .OpConstant, 0, OpCode.toNat .OpConstant, 1,
       OpCode.toNat .OpNegate, OpCode.toNat .OpReturn] := by
  refine ⟨?_, ?_, ?_⟩ <;> rfl

/-- C8: for every comparison or equality operator, the binary handler
first parses the right operand one precedence level above the
precedence of the operator, then appends exactly the opcode sequence the spec states:
Equal for double-equal; Equal Not for bang-equal; Greater Not for
less-equal; Less Not for greater-equal; and the single dedicated
opcode for strict less and strict greater.  Stated for every fuel
value, every compiler state and every operator token. -/
theorem claim_C8_comparison_emissions (fuel : Nat) (st : CompState)
    (lex : String) (line : Nat) :
    ((binary (fuel + 1) (some ⟨.EqualEqual, lex, line⟩) st).chunk.bytecode =
      (parse_precedence fuel (PrecEquality + 1) st).chunk.bytecode ++
        claimedOps .EqualEqual) ∧
    ((binary (fuel + 1) (some ⟨.BangEqual, lex, line⟩) st).chunk.bytecode =
      (parse_precedence fuel (PrecEquality + 1) st).chunk.bytecode ++
        claimedOps .BangEqual) ∧
    ((binary (fuel + 1) (some ⟨.LessEqual, lex, line⟩) st).chunk.bytecode =
      (parse_precedence fuel (PrecComparison + 1) st).chunk.bytecode ++
        claimedOps .LessEqual) ∧
    ((binary (fuel + 1) (some ⟨.GreaterEqual, lex, line⟩) st).chunk.bytecode =
      (parse_precedence fuel (PrecComparison + 1) st).chunk.bytecode ++
        claimedOps .GreaterEqual) ∧
    ((binary (fuel + 1) (some ⟨.Less, lex, line⟩) st).chunk.bytecode =
      (parse_precedence fuel (PrecComparison + 1) st).chunk.bytecode ++
        claimedOps .Less) ∧
    ((binary (fuel + 1) (some ⟨.Greater, lex, line⟩) st).chunk.bytecode =
      (parse_precedence fuel (PrecComparison + 1) st).chunk.bytecode ++
        claimedOps .Greater) := by
  refine ⟨?_, ?_, ?_, ?_, ?_, ?_⟩ <;>
    simp [binary, ParseRule.get_rule, ruleTable, emit_byte, emit_bytes,
      Chunk.write_chunk, claimedOps, Token.get_token_type, Token.get_line]

theorem emit_byte_inv {c : Chunk} {b line : Nat}
    (hb : b ≠ OpCode.toNat .OpConstant) (h : Inv c) : Inv (emit_byte c b line) := by
  show CodeOk c.const_pool.length (c.bytecode ++ [b])
  exact CodeOk.append h (CodeOk.simple hb CodeOk.nil)

theorem emit_bytes_inv {c : Chunk} {b1 b2 line : Nat}
    (hb1 : b1 ≠ OpCode.toNat .OpConstant) (hb2 : b2 ≠ OpCode.toNat .OpConstant)
    (h : Inv c) : Inv (emit_bytes c b1 b2 line) :=
  emit_byte_inv hb2 (emit_byte_inv hb1 h)

theorem emit_constant_inv {c : Chunk} {line : Nat} {v : GenericValue}
    (h : Inv c) : Inv (emit_constant line v c) := by
  show CodeOk (c.const_pool ++ [v]).length
    ((c.bytecode ++ [OpCode.toNat .OpConstant]) ++ [c.const_pool.length])
  rw [List.append_assoc]
  refine CodeOk.append (CodeOk.mono (by simp) h) ?_
  exact CodeOk.const (by simp) CodeOk.nil

theorem number_inv {t : Option Token} {c : Chunk} (h : Inv c) : Inv (number t c) := by
  cases t with
  | none => exact h
  | some tok => exact emit_constant_inv h

theorem string_inv {t : Option Token} {c : Chunk} (h : Inv c) : Inv (string t c) := by
  cases t with
  | none => exact h
  | some tok => exact emit_constant_inv h

theorem literal_inv {t : Option Token} {c : Chunk} (h : Inv c) : Inv (literal t c) := by
  unfold literal
  split
  · exact h
  · split
    · exact emit_byte_inv (by decide) h
    · exact emit_byte_inv (by decide) h
    · exact emit_byte_inv (by decide) h
    · exact h

theorem comp_inv (fuel : Nat) :
    (∀ prec st, Inv st.chunk → Inv (parse_precedence fuel prec st).chunk) ∧
    (∀ prec pt st, Inv st.chunk → Inv (ppLoop fuel prec pt st).chunk) ∧
    (∀ fn st, Inv st.chunk → Inv (execute_parsfn fuel fn st).chunk) ∧
    (∀ t st, Inv st.chunk → Inv (unary fuel t st).chunk) ∧
    (∀ t st, Inv st.chunk → Inv (binary fuel t st).chunk) ∧
    (∀ st, Inv st.chunk → Inv (grouping fuel st).chunk) ∧
    (∀ st, Inv st.chunk → Inv (expression fuel st).chunk) := by
  induction fuel with
  | zero =>
    refine ⟨?_, ?_, ?_, ?_, ?_, ?_, ?_⟩ <;> intros <;> assumption
  | succ n ih =>
    obtain ⟨ihp, ihl, ihe, ihu, ihb, ihg, ihx⟩ := ih
    refine ⟨?_, ?_, ?_, ?_, ?_, ?_, ?_⟩
    · intro prec st h
      simp only [parse_precedence]
      split
      · exact h
      · split
        · exact h
        · exact ihl _ _ _ (ihe _ _ h)
    · intro prec pt st h
      simp only [ppLoop]
      split
      · exact h
      · split
        · exact h
        · split
          · split
            · exact h
            · exact ihl _ _ _ (ihe _ _ h)
          · exact h
    · intro fn st h
      cases fn with
      | Literal => exact literal_inv h
      | Number => exact number_inv h
      | Unary => exact ihu _ _ h
      | Binary => exact ihb _ _ h
      | Grouping => exact ihg _ h
      | String => exact string_inv h
      | Null => exact h
    · intro t st h
      cases t with
      | none => exact h
      | some token =>
        simp only [unary]
        split
        · exact emit_byte_inv (by decide) (ihx _ (ihp _ _ h))
        · exact emit_byte_inv (by decide) (ihx _ (ihp _ _ h))
        · exact ihx _ (ihp _ _ h)
    · intro t st h
      cases t with
      | none => exact h
      | some token =>
        simp only [binary]
        split
        · exact h
        · split
          · exact emit_byte_inv (by decide) (ihp _ _ h)
          · exact emit_byte_inv (by decide) (ihp _ _ h)
          · exact emit_byte_inv (by decide) (ihp _ _ h)
          · exact emit_byte_inv (by decide) (ihp _ _ h)
          · exact emit_byte_inv (by decide) (ihp _ _ h)
          · exact emit_bytes_inv (by decide) (by decide) (ihp _ _ h)
          · exact emit_byte_inv (by decide) (ihp _ _ h)
          · exact emit_bytes_inv (by decide) (by decide) (ihp _ _ h)
          · exact emit_byte_inv (by decide) (ihp _ _ h)
          · exact emit_bytes_inv (by decide) (by decide) (ihp _ _ h)
          · exact ihp _ _ h
    · intro st h
      exact ihx _ h
    · intro st h
      exact ihp _ _ h

theorem compile_inv (s : String) (c0 : Chunk) (h : Inv c0) :
    Inv (compile s c0).2 := by
  exact emit_byte_inv (by decide)
    ((comp_inv (compileFuel s)).2.2.2.2.2.2 _ h)

/-- C9: for every chunk produced by a successful compile into a fresh
chunk, running a fresh VM over it can never abort on the unchecked
constant-pool access inside read_constant: every Constant operand byte,
at the moment it is read, is a valid index into the constant pool.
Proved from the compile-time invariant (every emitted Constant opcode
carries the in-range index returned by add_const, and every other
emitted byte is a non-Constant opcode), preserved under every step of
the run loop; the conclusion holds for every fuel value. -/
theorem claim_C9_constant_operands (s : String) (ch : Chunk)
    (h : compile s Chunk.default = (true, ch)) (fuel : Nat) :
    run fuel (VirtualMachine.new ch) ≠ .panic .poolOutOfRange := by
  have hinv : Inv ch := by
    have h2 := compile_inv s Chunk.default CodeOk.nil
    rw [h] at h2
    exact h2
  exact run_no_pool fuel _ hinv

/-- Witness for C9 at the concrete source text 1: the compile succeeds
and the run of its chunk does not abort on a pool access. -/
theorem claim_C9_witness :
    (compile "1" Chunk.default).1 = true ∧
    run 10 (VirtualMachine.new (compile "1" Chunk.default).2) ≠
      .panic .poolOutOfRange :=
  ⟨rfl, claim_C9_constant_operands "1" (compile "1" Chunk.default).2 rfl 10⟩

theorem steps_chunk {a b : VirtualMachine} (h : Steps a b) : b.chunk = a.chunk := by
  induction h with
  | refl vm => rfl
  | head hstep _ ih => exact ih.trans (step_next_chunk hstep)

theorem returnFramePost_ext (vm vmf : VirtualMachine)
    (hlen : vmf.ip = vm.chunk.bytecode.length) (bytes lines2 : List Nat)
    (consts : List GenericValue) :
    ((vmf.update_chunk (vm.chunk.appendCode bytes lines2 consts)).chunk.bytecode[
      (vmf.update_chunk (vm.chunk.appendCode bytes lines2 consts)).ip]?) =
      bytes[0]? := by
  show (vm.chunk.bytecode ++ bytes)[vmf.ip]? = bytes[0]?
  rw [hlen]
  exact get_append_left_len _ _

/-- C10: the run loop never resets the instruction pointer or the
operand stack and never replaces the chunk: whenever run returns a
result, the result is InterpretOk, the final chunk is the initial one,
the final state arises from the initial one by fall-through loop
iterations followed by the Return arm (so the stack and ip are exactly
what the executed instructions left), the final instruction pointer
sits one past the consumed Return byte, and when that Return byte was
the last byte of the chunk, a later run over the chunk extended by
appending fetches its first opcode from the first newly appended
byte. -/
theorem claim_C10_return_frame :
    ∀ (fuel : Nat) (vm vmf : VirtualMachine) (printed : GenericValue)
      (r : InterpretResult), run fuel vm = .res r printed vmf →
      ReturnFramePost vm vmf printed r := by
  intro fuel
  induction fuel with
  | zero => intro vm vmf printed r h; simp [run] at h
  | succ n ih =>
    intro vm vmf printed r h
    simp only [run] at h
    split at h
    next vm2 hs =>
      obtain ⟨hr, hch, ⟨vmr, hsteps, hdone, hipf, hret⟩, _⟩ := ih vm2 vmf printed r h
      have hc2 := step_next_chunk hs
      refine ⟨hr, hch.trans hc2, ⟨vmr, Steps.head hs hsteps, hdone, hipf, ?_⟩, ?_⟩
      · rw [← hc2]; exact hret
      · intro hlen bytes lines2 consts
        exact returnFramePost_ext vm vmf hlen bytes lines2 consts
    next r2 printed2 vm2 hs =>
      simp only [RunResult.res.injEq] at h
      obtain ⟨h1, h2, h3⟩ := h
      subst h1; subst h2; subst h3
      obtain ⟨hr, hch, hip, hret⟩ := step_done hs
      subst hr
      refine ⟨rfl, hch, ⟨vm, Steps.refl vm, hs, hip, hret⟩, ?_⟩
      intro hlen bytes lines2 consts
      exact returnFramePost_ext vm _ hlen bytes lines2 consts
    next w hs => simp at h

/-- Witness for C10 at a concrete run: load the constant 7, Return;
the run returns Ok printing 7 and the Return-frame property holds of
the initial and final states. -/
theorem claim_C10_witness :
    run 5 c10VM = .res .InterpretOk (.Number 7) c10VMF ∧
    ReturnFramePost c10VM c10VMF (.Number 7) .InterpretOk :=
  ⟨rfl, claim_C10_return_frame 5 c10VM c10VMF (.Number 7) .InterpretOk rfl⟩

end Lolang
